import Mathlib

/-!
Shallow embedding of the crypto-transaction-monitor bot
(src/config.py and src/bot.py) together with proofs about its
address parsing, classification, deduplication, statistics and
reconnection logic.

Modelling conventions:
* Python floats (prices, USD values) are modelled as rationals.
* The per-address statistics dictionaries (keyed by the monitored
  address lists) are modelled as total functions; every operation of
  the bot only ever reads or writes them at monitored keys, and the
  daily reset zeroes the daily counters pointwise exactly as the
  Python loop does on every key of the dictionaries.
* The effect of one call of the websocket message handler
  on_btc_message is modelled as a trace of primitive state actions
  (statistics mutation, notification send attempt, dedup marking),
  read off the handler's control flow; the post-state is the fold of
  those actions over the pre-state.  Whether the external
  bot.send_message call succeeds is an input (sendOk).
* The reconnection loop start_btc_websocket is modelled as a trace of
  connection actions per loop iteration; one iteration is driven by an
  Episode: the callback events the websocket library delivers during
  ws.run_forever plus whether the call raised an exception.
-/

namespace CryptoMonitor

/-! ## src/config.py -/

/-- ASCII whitespace characters removed by Python str.strip(). -/
def pySpace (c : Char) : Bool :=
  c == ' ' || c == '\t' || c == '\n' || c == '\r' ||
    c == Char.ofNat 11 || c == Char.ofNat 12

/-- Python str.strip(): drop whitespace from both ends. -/
def pyStrip (s : String) : String :=
  String.mk (((s.toList.dropWhile pySpace).reverse.dropWhile pySpace).reverse)

/-- Helper for splitting on commas, Python str.split(',') semantics. -/
def splitCommaAux : List Char → List Char → List (List Char)
  | [], acc => [acc.reverse]
  | c :: rest, acc =>
    if c == ',' then acc.reverse :: splitCommaAux rest []
    else splitCommaAux rest (c :: acc)

/-- Python str.split(','). -/
def pySplitComma (s : String) : List String :=
  (splitCommaAux s.toList []).map String.mk

/-- Python str.startswith. -/
def pyStarts (s pre : String) : Bool :=
  s.toList.take pre.toList.length == pre.toList

/-- The literal character class used for ETH hex validation. -/
def hexChars : List Char := "0123456789abcdefABCDEF".toList

/-- src/config.py validate_address_format. -/
def validate_address_format (address : String) : Bool :=
  if address == "" then false
  else if pyStarts address "1" || pyStarts address "3" ||
      pyStarts address "bc1" || pyStarts address "tb1" then
    decide (26 ≤ address.toList.length) && decide (address.toList.length ≤ 62)
  else if pyStarts address "0x" then
    decide (address.toList.length = 42) &&
      (address.toList.drop 2).all (fun c => hexChars.contains c)
  else false

/-- src/config.py parse_addresses, intermediate addr_list:
split on commas, strip whitespace, drop empty entries. -/
def addr_list_of (addresses : String) : List String :=
  ((pySplitComma addresses).map pyStrip).filter (fun a => a != "")

/-- src/config.py parse_addresses: on an empty env value return [],
otherwise keep (in order, with multiplicity) the entries passing
validate_address_format; invalid ones are dropped with a warning. -/
def parse_addresses (addresses : String) : List String :=
  if addresses == "" then []
  else (addr_list_of addresses).filter (fun a => validate_address_format a)

/-- src/config.py startup validation: raises (error) only when both
parsed watch-lists are empty. -/
def load_monitored (btcEnv ethEnv : String) :
    Except String (List String × List String) :=
  let b := parse_addresses btcEnv
  let e := parse_addresses ethEnv
  if b = [] ∧ e = [] then
    Except.error "At least one BTC or ETH address must be specified"
  else Except.ok (b, e)

/-! ## src/bot.py data model -/

/-- One entry of tx['out']: optional 'addr', 'value' in satoshi
(out.get('value', 0) defaults to 0). -/
structure Output where
  addr : Option String
  value : ℕ
deriving DecidableEq

/-- One entry of tx['inputs']: the address of its 'prev_out', when
both 'prev_out' and its 'addr' are present. -/
structure TxInput where
  prevOutAddr : Option String
deriving DecidableEq

/-- A decoded unconfirmed-transaction event (data['x']). -/
structure Tx where
  hash : Option String
  inputs : List TxInput
  out : List Output
deriving DecidableEq

inductive Chain where
  | btc
  | eth
deriving DecidableEq

/-- address_stats entry: 'alerts', 'total_value', 'filtered_count'. -/
structure AddressStats where
  alerts : ℕ
  total_value : ℚ
  filtered_count : ℕ
deriving DecidableEq

/-- The mutable global state of bot.py that the claims mention. -/
structure BotState where
  priceBtc : ℚ
  priceEth : ℚ
  processed : List String
  filtered : List String
  stats : Chain → String → AddressStats
  totalAlerts : ℕ
  totalFiltered : ℕ
  errorsCount : ℕ
  lastPriceUpdate : Option ℕ

/-- Configuration read by the handler: MONITORED_ADDRESSES['btc'] and
MINIMUM_USD_VALUE. -/
structure HandlerConfig where
  monitored : List String
  minUsd : ℚ

inductive Verdict where
  | alertable
  | filtered
deriving DecidableEq

/-- received_btc = satoshi / 100000000; usd = received_btc * price. -/
def satToUsd (satoshi : ℕ) (price : ℚ) : ℚ :=
  (satoshi : ℚ) / 100000000 * price

/-- The output-scanning loop of on_btc_message (src/bot.py lines
389-431), as a function from the output list to the verdict it stops
at: the first monitored, genuinely-incoming output yields Alertable
when usd_value >= MINIMUM_USD_VALUE and received_amount > 0 (then
break), Filtered when usd_value < MINIMUM_USD_VALUE (then break); a
monitored incoming output with usd_value >= MINIMUM_USD_VALUE but
received_amount = 0 falls through both branches without a break and
scanning continues. -/
def classifyOutputs (mon : List String) (inputs : List TxInput) (price minUsd : ℚ) :
    List Output → Option (String × ℕ × Verdict)
  | [] => none
  | o :: rest =>
    match o.addr with
    | none => classifyOutputs mon inputs price minUsd rest
    | some a =>
      if a ∈ mon then
        if ∃ i ∈ inputs, i.prevOutAddr = some a then
          classifyOutputs mon inputs price minUsd rest
        else if minUsd ≤ satToUsd o.value price then
          if 0 < o.value then some (a, o.value, Verdict.alertable)
          else classifyOutputs mon inputs price minUsd rest
        else some (a, o.value, Verdict.filtered)
      else classifyOutputs mon inputs price minUsd rest

/-- Primitive state effects performed by one handler call, in program
order. alertStats is the statistics mutation done inside
format_btc_message; sendAttempt is the bot.send_message call. -/
inductive Action where
  | alertStats (a : String) (usd : ℚ)
  | sendAttempt (h : String)
  | markProcessed (h : String)
  | incError
  | filterStats (a : String)
  | markFiltered (h : String)
deriving DecidableEq

/-- The entry guard of on_btc_message:
'if tx_hash and tx_hash not in processed_transactions'. -/
def txGuard (tx : Tx) (s : BotState) : Option String :=
  match tx.hash with
  | none => none
  | some h => if h = "" ∨ h ∈ s.processed then none else some h

/-- The trace of state effects of one on_btc_message call, read off
src/bot.py lines 380-431.  On the Alertable path the statistics are
mutated (format_btc_message), then the send is attempted, and the
transaction hash is added to processed_transactions only when the
send succeeds (the add sits after bot.send_message inside the try
block); a failed send increments the error counter instead.  On the
Filtered path the statistics are mutated and the hash is added to
processed_transactions and filtered_transactions, with no send. -/
def onBtcTrace (cfg : HandlerConfig) (sendOk : Bool) (tx : Tx) (s : BotState) :
    List Action :=
  match txGuard tx s with
  | none => []
  | some h =>
    match classifyOutputs cfg.monitored tx.inputs s.priceBtc cfg.minUsd tx.out with
    | none => []
    | some (a, amt, Verdict.alertable) =>
      [Action.alertStats a (satToUsd amt s.priceBtc), Action.sendAttempt h] ++
        (if sendOk then [Action.markProcessed h] else [Action.incError])
    | some (a, _, Verdict.filtered) =>
      [Action.filterStats a, Action.markProcessed h, Action.markFiltered h]

/-- Pointwise update of the statistics map at one (chain, address). -/
def updateStats (f : Chain → String → AddressStats) (c : Chain) (a : String)
    (g : AddressStats → AddressStats) : Chain → String → AddressStats :=
  fun c' a' => if c' = c ∧ a' = a then g (f c' a') else f c' a'

/-- State effect of each primitive action. -/
def applyAction (s : BotState) : Action → BotState
  | Action.alertStats a usd =>
    { s with
      stats := updateStats s.stats Chain.btc a
        (fun st => { st with alerts := st.alerts + 1, total_value := st.total_value + usd }),
      totalAlerts := s.totalAlerts + 1 }
  | Action.sendAttempt _ => s
  | Action.markProcessed h => { s with processed := h :: s.processed }
  | Action.incError => { s with errorsCount := s.errorsCount + 1 }
  | Action.filterStats a =>
    { s with
      stats := updateStats s.stats Chain.btc a
        (fun st => { st with filtered_count := st.filtered_count + 1 }),
      totalFiltered := s.totalFiltered + 1 }
  | Action.markFiltered h => { s with filtered := h :: s.filtered }

/-- The post-state of one on_btc_message call. -/
def onBtcState (cfg : HandlerConfig) (sendOk : Bool) (tx : Tx) (s : BotState) :
    BotState :=
  (onBtcTrace cfg sendOk tx s).foldl applyAction s

/-! ## src/bot.py periodic tasks (one cycle each) -/

/-- One cycle of reset_daily_stats (src/bot.py lines 496-527): zero
alerts and filtered_count for every address of both chains, zero the
two global counters, keep total_value; the reset notification send is
wrapped in try/except whose handler only logs, so the post-state does
not depend on whether the send succeeded. -/
def reset_daily_stats_once (_sendOk : Bool) (s : BotState) : BotState :=
  { s with
    stats := fun c a => { s.stats c a with alerts := 0, filtered_count := 0 },
    totalAlerts := 0,
    totalFiltered := 0 }

/-- One cycle of cleanup_processed_transactions (src/bot.py lines
488-494): clear processed_transactions only. -/
def cleanup_processed_transactions_once (s : BotState) : BotState :=
  { s with processed := [] }

/-- Outcome of one price fetch, tracking how far the try block of
src/bot.py lines 188-198 progresses before an exception (if any) is
raised.  ok: both price assignments complete (a missing asset entry
defaults its 'usd' lookup to 0) and last_price_update is stamped.
failBefore: the exception is raised before the first assignment
completes — request/JSON failure, a non-dict body, or a malformed
'bitcoin' entry whose 'usd' lookup raises — so nothing is assigned.
failBetween: the assignment
crypto_prices['btc'] = data.get('bitcoin', dict()).get('usd', 0)
on line 194 completed (carrying the parsed optional BTC value) and
the 'ethereum' lookup on line 195 then raised (its value a non-dict),
so only the BTC price was reassigned before control reaches the
except branch. -/
inductive FetchResult where
  | ok (btcUsd ethUsd : Option ℚ)
  | failBefore
  | failBetween (btcUsd : Option ℚ)
deriving DecidableEq

/-- One call of get_crypto_prices (src/bot.py lines 185-201): the
assignments of the try block run in order until the first exception,
and the except branch only logs and increments errors_count. -/
def get_crypto_prices (r : FetchResult) (now : ℕ) (s : BotState) : BotState :=
  match r with
  | FetchResult.ok b e =>
    { s with priceBtc := b.getD 0, priceEth := e.getD 0, lastPriceUpdate := some now }
  | FetchResult.failBefore => { s with errorsCount := s.errorsCount + 1 }
  | FetchResult.failBetween b =>
    { s with priceBtc := b.getD 0, errorsCount := s.errorsCount + 1 }

/-- The events that mutate the shared state during the process
lifetime. -/
inductive SysEvent where
  | btcMsg (sendOk : Bool) (tx : Tx)
  | cleanup
  | dailyReset (sendOk : Bool)
  | priceFetch (r : FetchResult) (now : ℕ)

/-- One step of the whole system. -/
def sysStep (cfg : HandlerConfig) (s : BotState) : SysEvent → BotState
  | SysEvent.btcMsg ok tx => onBtcState cfg ok tx s
  | SysEvent.cleanup => cleanup_processed_transactions_once s
  | SysEvent.dailyReset ok => reset_daily_stats_once ok s
  | SysEvent.priceFetch r t => get_crypto_prices r t s

/-! ## src/bot.py websocket connector -/

/-- Callback events delivered by the websocket library during one
ws.run_forever call. -/
inductive CbEvent where
  | opened
  | msgFrame
  | errFrame
  | closedFrame
deriving DecidableEq

/-- Observable actions of the connector loop. -/
inductive ConnAct where
  | setState (st : String)
  | construct
  | sendSubscribe
  | incErrCount
  | sleep (seconds : ℕ)
deriving DecidableEq

/-- State effects of the registered callbacks (on_btc_open,
on_btc_error, on_btc_close; on_btc_message is modelled separately via
onBtcTrace). -/
def cbActs : CbEvent → List ConnAct
  | CbEvent.opened => [ConnAct.setState "connected", ConnAct.sendSubscribe]
  | CbEvent.msgFrame => []
  | CbEvent.errFrame => [ConnAct.setState "error", ConnAct.incErrCount]
  | CbEvent.closedFrame => [ConnAct.setState "disconnected"]

/-- One connection attempt as observed from outside the library: the
callback events it delivered, and whether the construction or
run_forever call raised an exception into the surrounding try. -/
structure Episode where
  events : List CbEvent
  raised : Bool

/-- One iteration of the while-True loop of start_btc_websocket
(src/bot.py lines 452-474): set state 'connecting', construct the
WebSocketApp, run it (callbacks fire); only when an exception is
caught does the loop set state 'error', bump the error counter and
sleep 10 seconds; otherwise the next iteration starts immediately. -/
def iterTrace (ep : Episode) : List ConnAct :=
  [ConnAct.setState "connecting", ConnAct.construct] ++ (ep.events.map cbActs).flatten ++
    (if ep.raised then
      [ConnAct.setState "error", ConnAct.incErrCount, ConnAct.sleep 10]
    else [])

/-- The connector loop over a sequence of connection episodes. -/
def loopTrace : List Episode → List ConnAct
  | [] => []
  | ep :: rest => iterTrace ep ++ loopTrace rest

/-! ## Concrete fixtures used by witnesses and counterexamples -/

/-- A syntactically valid BTC watch address (length 26, leading '1'). -/
def addrA : String := "1AAAAAAAAAAAAAAAAAAAAAAAAA"

def stats0 : Chain → String → AddressStats :=
  fun _ _ => { alerts := 0, total_value := 0, filtered_count := 0 }

def state0 : BotState :=
  { priceBtc := 50000, priceEth := 3000, processed := [], filtered := [],
    stats := stats0, totalAlerts := 0, totalFiltered := 0, errorsCount := 0,
    lastPriceUpdate := none }

def cfg0 : HandlerConfig := { monitored := [addrA], minUsd := 2 }

/-- 1 BTC to the watched address: alertable at price 50000, min 2. -/
def txAlert : Tx :=
  { hash := some "h1", inputs := [],
    out := [{ addr := some addrA, value := 100000000 }] }

/-- 1000 satoshi to the watched address: 0.50 USD, below min 2. -/
def txFiltered : Tx :=
  { hash := some "h2", inputs := [],
    out := [{ addr := some addrA, value := 1000 }] }

/-- The watched address appears both as an input source and as the
only watched output. -/
def txRoundTrip : Tx :=
  { hash := some "h3", inputs := [{ prevOutAddr := some addrA }],
    out := [{ addr := some addrA, value := 100000000 }] }

/-- A state whose dedup store already contains txAlert's hash. -/
def stateSeen : BotState := { state0 with processed := ["h1"] }

/-- A state with one id already in the filtered-transactions set. -/
def stateF : BotState := { state0 with filtered := ["x1"] }

/-- Two connection episodes: a clean open-then-close (run_forever
returns, no exception), then a fresh attempt. -/
def closeEpisodes : List Episode :=
  [{ events := [CbEvent.opened, CbEvent.closedFrame], raised := false },
   { events := [], raised := false }]

/-- An env value listing the same valid BTC address twice. -/
def dupEnv : String :=
  "1AAAAAAAAAAAAAAAAAAAAAAAAA,1AAAAAAAAAAAAAAAAAAAAAAAAA"

/-- An output decides the scan (spec-side helper for stating which
output the classifier stops at): it is watched, genuinely incoming,
and either below threshold or of positive amount. -/
def outputDecides (mon : List String) (inputs : List TxInput) (price minUsd : ℚ)
    (o : Output) : Bool :=
  match o.addr with
  | none => false
  | some a =>
    decide (a ∈ mon) && !decide (∃ i ∈ inputs, i.prevOutAddr = some a) &&
      (decide (satToUsd o.value price < minUsd) || decide (0 < o.value))

/-- The classification the scan emits for the output it stops at. -/
def outputResult (price minUsd : ℚ) (o : Output) : String × ℕ × Verdict :=
  (o.addr.getD "", o.value,
    if minUsd ≤ satToUsd o.value price ∧ 0 < o.value then Verdict.alertable
    else Verdict.filtered)

/-! ## Helper lemmas -/

theorem txGuard_eq_some {tx : Tx} {s : BotState} {h : String}
    (hg : txGuard tx s = some h) :
    tx.hash = some h ∧ h ≠ "" ∧ h ∉ s.processed := by
  rcases hh : tx.hash with _ | h'
  · simp [txGuard, hh] at hg
  · simp only [txGuard, hh] at hg
    by_cases hc : h' = "" ∨ h' ∈ s.processed
    · rw [if_pos hc] at hg
      exact absurd hg (by simp)
    · rw [if_neg hc] at hg
      obtain rfl : h' = h := by injection hg
      push_neg at hc
      exact ⟨rfl, hc.1, hc.2⟩

theorem getElem?_triple {α : Type} (a b c x : α) (i : ℕ)
    (h : [a, b, c][i]? = some x) :
    (i = 0 ∧ x = a) ∨ (i = 1 ∧ x = b) ∨ (i = 2 ∧ x = c) := by
  match i with
  | 0 => exact Or.inl ⟨rfl, by simpa using h.symm⟩
  | 1 => exact Or.inr (Or.inl ⟨rfl, by simpa using h.symm⟩)
  | 2 => exact Or.inr (Or.inr ⟨rfl, by simpa using h.symm⟩)
  | n + 3 => simp at h

theorem exists_out_cons {o : Output} {rest : List Output} {a : String} {v : ℕ}
    (h : ∃ o' ∈ rest, o'.addr = some a ∧ o'.value = v) :
    ∃ o' ∈ o :: rest, o'.addr = some a ∧ o'.value = v := by
  obtain ⟨o', ho', hs⟩ := h
  exact ⟨o', List.mem_cons_of_mem _ ho', hs⟩

theorem classify_alertable_spec (mon : List String) (inputs : List TxInput)
    (price minUsd : ℚ) :
    ∀ (outs : List Output) (a : String) (v : ℕ),
      classifyOutputs mon inputs price minUsd outs = some (a, v, Verdict.alertable) →
      a ∈ mon ∧ (∃ o ∈ outs, o.addr = some a ∧ o.value = v) ∧
        (∀ i ∈ inputs, i.prevOutAddr ≠ some a) ∧ 0 < v := by
  intro outs
  induction outs with
  | nil => intro a v h; simp [classifyOutputs] at h
  | cons o rest ih =>
    intro a v h
    rcases ho : o.addr with _ | a'
    · simp only [classifyOutputs, ho] at h
      obtain ⟨h1, h2, h3, h4⟩ := ih a v h
      exact ⟨h1, exists_out_cons h2, h3, h4⟩
    · by_cases ha : a' ∈ mon
      · by_cases hrt : ∃ i ∈ inputs, i.prevOutAddr = some a'
        · simp only [classifyOutputs, ho, if_pos ha, if_pos hrt] at h
          obtain ⟨h1, h2, h3, h4⟩ := ih a v h
          exact ⟨h1, exists_out_cons h2, h3, h4⟩
        · by_cases hle : minUsd ≤ satToUsd o.value price
          · by_cases hv : 0 < o.value
            · simp only [classifyOutputs, ho, if_pos ha, if_neg hrt, if_pos hle,
                if_pos hv, Option.some.injEq, Prod.mk.injEq] at h
              obtain ⟨hax, hvx, _⟩ := h
              subst hax; subst hvx
              push_neg at hrt
              exact ⟨ha, ⟨o, List.mem_cons_self _ _, ho, rfl⟩, hrt, hv⟩
            · simp only [classifyOutputs, ho, if_pos ha, if_neg hrt, if_pos hle,
                if_neg hv] at h
              obtain ⟨h1, h2, h3, h4⟩ := ih a v h
              exact ⟨h1, exists_out_cons h2, h3, h4⟩
          · simp only [classifyOutputs, ho, if_pos ha, if_neg hrt, if_neg hle,
              Option.some.injEq, Prod.mk.injEq] at h
            exact absurd h.2.2 (by simp)
      · simp only [classifyOutputs, ho, if_neg ha] at h
        obtain ⟨h1, h2, h3, h4⟩ := ih a v h
        exact ⟨h1, exists_out_cons h2, h3, h4⟩

theorem classify_none_of_roundtrip (mon : List String) (inputs : List TxInput)
    (price minUsd : ℚ) :
    ∀ outs : List Output,
      (∀ o ∈ outs, ∀ a, o.addr = some a → a ∈ mon →
        ∃ i ∈ inputs, i.prevOutAddr = some a) →
      classifyOutputs mon inputs price minUsd outs = none := by
  intro outs
  induction outs with
  | nil => intro _; rfl
  | cons o rest ih =>
    intro hall
    have hrest : ∀ o' ∈ rest, ∀ a, o'.addr = some a → a ∈ mon →
        ∃ i ∈ inputs, i.prevOutAddr = some a :=
      fun o' ho' => hall o' (List.mem_cons_of_mem _ ho')
    rcases ho : o.addr with _ | a
    · simp only [classifyOutputs, ho]; exact ih hrest
    · by_cases ha : a ∈ mon
      · have hrt : ∃ i ∈ inputs, i.prevOutAddr = some a :=
          hall o (List.mem_cons_self _ _) a ho ha
        simp only [classifyOutputs, ho, if_pos ha, if_pos hrt]
        exact ih hrest
      · simp only [classifyOutputs, ho, if_neg ha]
        exact ih hrest

theorem count_filter_of_pos {p : String → Bool} {a : String} (h : p a = true) :
    ∀ l : List String, (l.filter p).count a = l.count a := by
  intro l
  induction l with
  | nil => rfl
  | cons x xs ih =>
    by_cases hx : p x = true
    · rw [List.filter_cons_of_pos hx]
      by_cases hax : x = a
      · subst hax; rw [List.count_cons_self, List.count_cons_self, ih]
      · rw [List.count_cons_of_ne (by exact fun hc => hax hc.symm),
          List.count_cons_of_ne (by exact fun hc => hax hc.symm), ih]
    · rw [List.filter_cons_of_neg (by simpa using hx)]
      have hax : x ≠ a := fun hc => hx (hc ▸ h)
      rw [List.count_cons_of_ne (by exact fun hc => hax hc.symm), ih]

theorem sleep_not_mem_cbActs (e : CbEvent) (n : ℕ) : ConnAct.sleep n ∉ cbActs e := by
  cases e <;> simp [cbActs]

theorem filtered_subset_foldl (acts : List Action) :
    ∀ s : BotState, s.filtered ⊆ (acts.foldl applyAction s).filtered := by
  induction acts with
  | nil => exact fun s x hx => hx
  | cons a rest ih =>
    intro s x hx
    refine ih (applyAction s a) ?_
    cases a with
    | alertStats a u => exact hx
    | sendAttempt h => exact hx
    | markProcessed h => exact hx
    | incError => exact hx
    | filterStats a => exact hx
    | markFiltered h => exact List.mem_cons_of_mem _ hx

/-! ## Claims -/

/-- C6: the daily reset sets alertCount and filteredCount to 0 for
every watched address on both chains and zeroes the two global
counters, leaves every address's cumulative fiat value unchanged; a
subsequent alert application increments alertCount from 0 to 1; and a
failing post-reset notification send yields the same post-state as a
successful one (no rollback). -/
theorem daily_reset_spec (ok : Bool) (s : BotState) (c : Chain) (a : String) (sat : ℕ) :
    ((reset_daily_stats_once ok s).stats c a).alerts = 0 ∧
    ((reset_daily_stats_once ok s).stats c a).filtered_count = 0 ∧
    ((reset_daily_stats_once ok s).stats c a).total_value = (s.stats c a).total_value ∧
    (reset_daily_stats_once ok s).totalAlerts = 0 ∧
    (reset_daily_stats_once ok s).totalFiltered = 0 ∧
    ((applyAction (reset_daily_stats_once ok s)
        (Action.alertStats a (satToUsd sat s.priceBtc))).stats Chain.btc a).alerts = 1 ∧
    reset_daily_stats_once false s = reset_daily_stats_once true s := by
  refine ⟨rfl, rfl, rfl, rfl, rfl, ?_, rfl⟩
  simp [applyAction, reset_daily_stats_once, updateStats]

/-- Counterexample to C8 as stated: a fetch whose 'bitcoin' entry is
absent and whose 'ethereum' entry raises after the first assignment
is a failed fetch (the error counter is incremented by the except
branch), yet it replaces the previously fetched non-zero BTC price
50000 with 0 — a failed fetch does not always keep the last known
values. -/
theorem price_fetch_partial_failure_ce :
    (get_crypto_prices (FetchResult.failBetween none) 7 state0).errorsCount
      = state0.errorsCount + 1 ∧
    state0.priceBtc = 50000 ∧
    (get_crypto_prices (FetchResult.failBetween none) 7 state0).priceBtc = 0 :=
  ⟨rfl, rfl, rfl⟩

/-- C8 (amended): every failed price refresh increments the global
error counter and leaves the ETH price, the last-update timestamp and
the rest of the state unchanged; the BTC price is also kept when the
exception is raised before the first assignment, but when the
exception is raised between the two assignments the already-executed
BTC reassignment stands — the parsed 'bitcoin' value, zero when
absent — so a failed fetch can replace a previously fetched non-zero
BTC price. -/
theorem price_fetch_failure_spec (now : ℕ) (s : BotState) (b : Option ℚ) :
    ((get_crypto_prices FetchResult.failBefore now s).priceBtc = s.priceBtc ∧
      (get_crypto_prices FetchResult.failBefore now s).priceEth = s.priceEth ∧
      (get_crypto_prices FetchResult.failBefore now s).errorsCount = s.errorsCount + 1 ∧
      (get_crypto_prices FetchResult.failBefore now s).lastPriceUpdate
        = s.lastPriceUpdate ∧
      (get_crypto_prices FetchResult.failBefore now s).stats = s.stats ∧
      (get_crypto_prices FetchResult.failBefore now s).processed = s.processed) ∧
    ((get_crypto_prices (FetchResult.failBetween b) now s).priceBtc = b.getD 0 ∧
      (get_crypto_prices (FetchResult.failBetween b) now s).priceEth = s.priceEth ∧
      (get_crypto_prices (FetchResult.failBetween b) now s).errorsCount
        = s.errorsCount + 1 ∧
      (get_crypto_prices (FetchResult.failBetween b) now s).lastPriceUpdate
        = s.lastPriceUpdate ∧
      (get_crypto_prices (FetchResult.failBetween b) now s).stats = s.stats ∧
      (get_crypto_prices (FetchResult.failBetween b) now s).processed = s.processed) :=
  ⟨⟨rfl, rfl, rfl, rfl, rfl, rfl⟩, ⟨rfl, rfl, rfl, rfl, rfl, rfl⟩⟩

/-- C10: the filtered-transactions set only ever grows under every
system event, and the 24-hour cleanup clears exactly the
processed-transactions set while leaving the filtered set untouched. -/
theorem filtered_set_monotone (cfg : HandlerConfig) (s : BotState) (e : SysEvent) :
    s.filtered ⊆ (sysStep cfg s e).filtered ∧
    (sysStep cfg s SysEvent.cleanup).processed = [] ∧
    (sysStep cfg s SysEvent.cleanup).filtered = s.filtered := by
  refine ⟨?_, rfl, rfl⟩
  cases e with
  | btcMsg ok tx => exact filtered_subset_foldl _ s
  | cleanup => exact fun x hx => hx
  | dailyReset ok => exact fun x hx => hx
  | priceFetch r t => cases r <;> exact fun x hx => hx

/-- Witness for C10 at a concrete state: an id already in the
filtered set survives a cleanup cycle. -/
theorem filtered_set_monotone_witness :
    "x1" ∈ (sysStep cfg0 stateF SysEvent.cleanup).filtered :=
  (filtered_set_monotone cfg0 stateF SysEvent.cleanup).1 (by simp [stateF])

/-- Counterexample to C1 as stated: with threshold 0, a transaction
with one qualifying output (watched address, not among the input
sources) of native amount 0 produces no classification at all — the
claim demands exactly one result with verdict Filtered, but the scan
skips the output (usd 0 ≥ threshold 0 yet amount not > 0) and
continues to the end. -/
theorem classify_zero_amount_gap_ce :
    addrA ∈ ([addrA] : List String) ∧
    (∀ i ∈ ([] : List TxInput), i.prevOutAddr ≠ some addrA) ∧
    classifyOutputs [addrA] [] 50000 0 [{ addr := some addrA, value := 0 }] = none := by
  refine ⟨by simp, by simp, ?_⟩
  norm_num [classifyOutputs, satToUsd]

/-- C1 (amended): the scan emits exactly the classification of the
first deciding output — watched, genuinely incoming, and either below
threshold (verdict Filtered) or of positive amount (verdict Alertable
when fiat ≥ threshold); a qualifying output with fiat ≥ threshold and
amount 0 decides nothing and scanning continues; when no output
decides, no result is emitted. -/
theorem classifyOutputs_first_deciding (mon : List String) (inputs : List TxInput)
    (price minUsd : ℚ) (outs : List Output) :
    classifyOutputs mon inputs price minUsd outs =
      (outs.find? (outputDecides mon inputs price minUsd)).map
        (outputResult price minUsd) := by
  induction outs with
  | nil => rfl
  | cons o rest ih =>
    rcases ho : o.addr with _ | a
    · have hd : outputDecides mon inputs price minUsd o = false := by
        simp [outputDecides, ho]
      rw [List.find?_cons_of_neg _ (by simp [hd])]
      simp only [classifyOutputs, ho]
      exact ih
    · by_cases ha : a ∈ mon
      · by_cases hrt : ∃ i ∈ inputs, i.prevOutAddr = some a
        · have hd : outputDecides mon inputs price minUsd o = false := by
            simp [outputDecides, ho, ha, hrt]
          rw [List.find?_cons_of_neg _ (by simp [hd])]
          simp only [classifyOutputs, ho, if_pos ha, if_pos hrt]
          exact ih
        · by_cases hle : minUsd ≤ satToUsd o.value price
          · by_cases hv : 0 < o.value
            · have hd : outputDecides mon inputs price minUsd o = true := by
                simp [outputDecides, ho, ha, hrt, hv]
              rw [List.find?_cons_of_pos _ (by simp [hd])]
              simp [classifyOutputs, ho, if_pos ha, if_neg hrt, if_pos hle, if_pos hv,
                outputResult, hle, hv]
            · have hd : outputDecides mon inputs price minUsd o = false := by
                simp [outputDecides, ho, ha, hrt, hv, not_lt.mpr hle]
              rw [List.find?_cons_of_neg _ (by simp [hd])]
              simp only [classifyOutputs, ho, if_pos ha, if_neg hrt, if_pos hle, if_neg hv]
              exact ih
          · have hd : outputDecides mon inputs price minUsd o = true := by
              simp [outputDecides, ho, ha, hrt, lt_of_not_le hle]
            rw [List.find?_cons_of_pos _ (by simp [hd])]
            simp [classifyOutputs, ho, if_pos ha, if_neg hrt, if_neg hle, outputResult]
            rw [if_neg (fun hc => hle hc.1)]
      · have hd : outputDecides mon inputs price minUsd o = false := by
          simp [outputDecides, ho, ha]
        rw [List.find?_cons_of_neg _ (by simp [hd])]
        simp only [classifyOutputs, ho, if_neg ha]
        exact ih

/-- Counterexample to C5 as stated: a clean close of the feed
connection sets the state to 'disconnected' and the loop immediately
sets 'connecting' and reconstructs — no sleep action occurs anywhere
in the trace, so no fixed backoff is awaited before reconnecting. -/
theorem connector_no_backoff_on_close_ce :
    loopTrace closeEpisodes =
      [ConnAct.setState "connecting", ConnAct.construct, ConnAct.setState "connected",
       ConnAct.sendSubscribe, ConnAct.setState "disconnected",
       ConnAct.setState "connecting", ConnAct.construct] ∧
    ConnAct.sleep 10 ∉ loopTrace closeEpisodes := by
  refine ⟨by decide, by decide⟩

/-- C5 (amended): the fixed 10-second backoff occurs in a connector
iteration exactly when the connection attempt raised an exception, in
which case the iteration ends with state 'error', an error-counter
increment and the sleep; every iteration (hence every reconnection)
begins by setting state 'connecting'; after a callback-reported close
or error with no exception the next iteration starts with no backoff. -/
theorem connector_backoff_iff_raised (ep : Episode) :
    (ConnAct.sleep 10 ∈ iterTrace ep ↔ ep.raised = true) ∧
    (ep.raised = true →
      iterTrace ep =
        ([ConnAct.setState "connecting", ConnAct.construct] ++
          (ep.events.map cbActs).flatten) ++
          [ConnAct.setState "error", ConnAct.incErrCount, ConnAct.sleep 10]) ∧
    (iterTrace ep).head? = some (ConnAct.setState "connecting") := by
  refine ⟨⟨?_, ?_⟩, ?_, rfl⟩
  · intro hmem
    by_contra hr
    have hr' : ep.raised = false := by
      cases h : ep.raised
      · rfl
      · exact absurd h hr
    simp only [iterTrace, hr', if_neg (by simp : ¬(false = true)), List.append_nil,
      List.mem_append] at hmem
    rcases hmem with hmem | hmem
    · simp at hmem
    · rw [List.mem_flatten] at hmem
      obtain ⟨l, hl, hml⟩ := hmem
      rw [List.mem_map] at hl
      obtain ⟨e, _, rfl⟩ := hl
      exact sleep_not_mem_cbActs e 10 hml
  · intro hr
    simp [iterTrace, hr]
  · intro hr
    simp [iterTrace, hr, List.append_assoc]

/-- Witness for C5 (amended) at a concrete episode: an exception-
terminated connection attempt does sleep for the backoff. -/
theorem connector_backoff_iff_raised_witness :
    ConnAct.sleep 10 ∈ iterTrace { events := [], raised := true } :=
  (connector_backoff_iff_raised { events := [], raised := true }).1.mpr rfl

/-- Counterexample to C7 as stated: an env listing the same valid BTC
address twice loads a watch-list with a duplicate — uniqueness of
(chain, address) is not enforced at load time. -/
theorem parse_addresses_duplicates_ce :
    parse_addresses dupEnv = [addrA, addrA] ∧ ¬ (parse_addresses dupEnv).Nodup := by
  have h : parse_addresses dupEnv = [addrA, addrA] := by decide
  refine ⟨h, ?_⟩
  rw [h]
  simp

/-- C7 (amended): every entry retained by the loader passes the
chain's address-format validation (invalid entries are dropped,
never inserted), valid entries are kept in order and with their full
multiplicity (duplicates are NOT removed), and a non-empty parsed
list never aborts startup. -/
theorem parse_addresses_valid_and_counted (env bEnv eEnv a : String) :
    (∀ x ∈ parse_addresses env, validate_address_format x = true) ∧
    (validate_address_format a = true →
      (parse_addresses env).count a = (addr_list_of env).count a) ∧
    (parse_addresses bEnv ≠ [] →
      load_monitored bEnv eEnv =
        Except.ok (parse_addresses bEnv, parse_addresses eEnv)) := by
  refine ⟨?_, ?_, ?_⟩
  · intro x hx
    unfold parse_addresses at hx
    by_cases he : (env == "") = true
    · rw [if_pos he] at hx
      simp at hx
    · rw [if_neg he] at hx
      exact (List.mem_filter.mp hx).2
  · intro hval
    unfold parse_addresses
    by_cases he : (env == "") = true
    · rw [if_pos he]
      have he' : env = "" := eq_of_beq he
      subst he'
      rfl
    · rw [if_neg he]
      exact count_filter_of_pos hval (addr_list_of env)
  · intro hne
    have hcond : ¬(parse_addresses bEnv = [] ∧ parse_addresses eEnv = []) :=
      fun hcon => hne hcon.1
    simp only [load_monitored, if_neg hcond]

/-- Witness for C7 (amended): the duplicate-listing env keeps both
copies of the valid address and does not abort startup. -/
theorem parse_addresses_valid_and_counted_witness :
    (parse_addresses dupEnv).count addrA = (addr_list_of dupEnv).count addrA ∧
    load_monitored dupEnv "" =
      Except.ok (parse_addresses dupEnv, parse_addresses "") :=
  ⟨(parse_addresses_valid_and_counted dupEnv dupEnv "" addrA).2.1 (by decide),
   (parse_addresses_valid_and_counted dupEnv dupEnv "" addrA).2.2 (by decide)⟩

/-- Counterexample to C2 as stated: for an alertable event whose id
is not yet in the dedup store, the handler attempts the external send
(index 1 of the trace) strictly before adding the id to the dedup
store (index 2) — the send occurs while the id is still absent. -/
theorem onBtc_send_before_mark_ce :
    onBtcTrace cfg0 true txAlert state0 =
      [Action.alertStats addrA 50000, Action.sendAttempt "h1",
       Action.markProcessed "h1"] ∧
    Action.sendAttempt "h1" ∈ (onBtcTrace cfg0 true txAlert state0).take 2 ∧
    Action.markProcessed "h1" ∉ (onBtcTrace cfg0 true txAlert state0).take 2 := by
  have h : onBtcTrace cfg0 true txAlert state0 =
      [Action.alertStats addrA 50000, Action.sendAttempt "h1",
       Action.markProcessed "h1"] := by
    norm_num [onBtcTrace, txGuard, classifyOutputs, satToUsd, cfg0, txAlert, state0,
      show ("h1" : String) ≠ "" from by decide]
  refine ⟨h, ?_, ?_⟩ <;> rw [h] <;> simp

/-- C2 (amended): within one handler call, the dedup-store add never
precedes a send attempt — on the Alertable path the send is attempted
first and the id is added only after (and only when) the send
succeeds, while on the Filtered path the id is added with no send
attempted at all. -/
theorem onBtc_mark_after_send (cfg : HandlerConfig) (ok : Bool) (tx : Tx) (s : BotState) :
    (∀ (i j : ℕ) (h h' : String),
      (onBtcTrace cfg ok tx s)[i]? = some (Action.sendAttempt h) →
      (onBtcTrace cfg ok tx s)[j]? = some (Action.markProcessed h') → i < j) ∧
    (∀ h a amt, txGuard tx s = some h →
      classifyOutputs cfg.monitored tx.inputs s.priceBtc cfg.minUsd tx.out =
        some (a, amt, Verdict.filtered) →
      Action.markProcessed h ∈ onBtcTrace cfg ok tx s ∧
        ∀ h', Action.sendAttempt h' ∉ onBtcTrace cfg ok tx s) ∧
    (ok = false → ∀ h a amt,
      classifyOutputs cfg.monitored tx.inputs s.priceBtc cfg.minUsd tx.out =
        some (a, amt, Verdict.alertable) →
      Action.markProcessed h ∉ onBtcTrace cfg ok tx s) := by
  rcases hg : txGuard tx s with _ | h₀
  · have htr : onBtcTrace cfg ok tx s = [] := by simp [onBtcTrace, hg]
    refine ⟨?_, ?_, ?_⟩
    · intro i j h h' hi _
      rw [htr] at hi
      simp at hi
    · intro h a amt hg' _
      exact absurd hg' (by simp)
    · intro _ h a amt _
      rw [htr]
      simp
  · rcases hc : classifyOutputs cfg.monitored tx.inputs s.priceBtc cfg.minUsd tx.out
      with _ | ⟨a₀, amt₀, v₀⟩
    · have htr : onBtcTrace cfg ok tx s = [] := by simp [onBtcTrace, hg, hc]
      refine ⟨?_, ?_, ?_⟩
      · intro i j h h' hi _
        rw [htr] at hi
        simp at hi
      · intro h a amt _ hc'
        exact absurd hc' (by simp)
      · intro _ h a amt _
        rw [htr]
        simp
    · cases v₀ with
      | alertable =>
        cases ok with
        | true =>
          have htr : onBtcTrace cfg true tx s =
              [Action.alertStats a₀ (satToUsd amt₀ s.priceBtc), Action.sendAttempt h₀,
               Action.markProcessed h₀] := by
            simp [onBtcTrace, hg, hc]
          refine ⟨?_, ?_, ?_⟩
          · intro i j h h' hi hj
            rw [htr] at hi hj
            rcases getElem?_triple _ _ _ _ _ hi with ⟨_, hx⟩ | ⟨hi1, _⟩ | ⟨_, hx⟩
            · exact absurd hx (by simp)
            · rcases getElem?_triple _ _ _ _ _ hj with ⟨_, hx⟩ | ⟨_, hx⟩ | ⟨hj2, _⟩
              · exact absurd hx (by simp)
              · exact absurd hx (by simp)
              · omega
            · exact absurd hx (by simp)
          · intro h a amt _ hc'
            exact absurd hc' (by simp)
          · intro hok
            exact absurd hok (by simp)
        | false =>
          have htr : onBtcTrace cfg false tx s =
              [Action.alertStats a₀ (satToUsd amt₀ s.priceBtc), Action.sendAttempt h₀,
               Action.incError] := by
            simp [onBtcTrace, hg, hc]
          refine ⟨?_, ?_, ?_⟩
          · intro i j h h' _ hj
            rw [htr] at hj
            rcases getElem?_triple _ _ _ _ _ hj with ⟨_, hx⟩ | ⟨_, hx⟩ | ⟨_, hx⟩ <;>
              exact absurd hx (by simp)
          · intro h a amt _ hc'
            exact absurd hc' (by simp)
          · intro _ h a amt _
            rw [htr]
            simp
      | filtered =>
        have htr : onBtcTrace cfg ok tx s =
            [Action.filterStats a₀, Action.markProcessed h₀, Action.markFiltered h₀] := by
          simp [onBtcTrace, hg, hc]
        refine ⟨?_, ?_, ?_⟩
        · intro i j h h' hi _
          rw [htr] at hi
          rcases getElem?_triple _ _ _ _ _ hi with ⟨_, hx⟩ | ⟨_, hx⟩ | ⟨_, hx⟩ <;>
            exact absurd hx (by simp)
        · intro h a amt hg' hc'
          obtain rfl : h₀ = h := by injection hg'
          rw [htr]
          refine ⟨by simp, ?_⟩
          intro h'
          simp
        · intro _ h a amt hc'
          exact absurd hc' (by simp)

/-- Witness for C2 (amended) at a concrete below-threshold event: the
id is marked processed and no send is ever attempted. -/
theorem onBtc_mark_after_send_witness :
    Action.markProcessed "h2" ∈ onBtcTrace cfg0 true txFiltered state0 ∧
    Action.sendAttempt "h2" ∉ onBtcTrace cfg0 true txFiltered state0 := by
  have hg : txGuard txFiltered state0 = some "h2" := by
    norm_num [txGuard, txFiltered, state0, show ("h2" : String) ≠ "" from by decide]
  have hc : classifyOutputs cfg0.monitored txFiltered.inputs state0.priceBtc cfg0.minUsd
      txFiltered.out = some (addrA, 1000, Verdict.filtered) := by
    norm_num [classifyOutputs, satToUsd, cfg0, txFiltered, state0]
  obtain ⟨h1, h2⟩ :=
    (onBtc_mark_after_send cfg0 true txFiltered state0).2.1 "h2" addrA 1000 hg hc
  exact ⟨h1, h2 "h2"⟩

/-- Counterexample to C3 as stated: an alertable event whose send
fails is never marked in the dedup store, so processing the same
event twice mutates the alert statistics twice (alerts = 2), not at
most once. -/
theorem dedup_double_count_ce :
    ((onBtcState cfg0 false txAlert (onBtcState cfg0 false txAlert state0)).stats
        Chain.btc addrA).alerts = 2 ∧
    (state0.stats Chain.btc addrA).alerts = 0 ∧
    (onBtcState cfg0 false txAlert (onBtcState cfg0 false txAlert state0)).processed
      = [] := by
  refine ⟨?_, rfl, ?_⟩ <;>
    norm_num [onBtcState, onBtcTrace, txGuard, classifyOutputs, satToUsd, cfg0, txAlert,
      state0, stats0, applyAction, updateStats, show ("h1" : String) ≠ "" from by decide]

/-- C3 (amended): once a transaction id is in the dedup store, a
later event with that id changes no state and emits no action; and
whenever the first processing's alert send succeeds (which covers the
Filtered path, where no send happens), reprocessing the same event is
a complete no-op — the at-most-one-mutation guarantee holds except
after a failed alert send, where the id stays absent. -/
theorem onBtc_noop_of_guard_none (cfg : HandlerConfig) (ok : Bool) (tx : Tx)
    (t : BotState) (hg : txGuard tx t = none) :
    onBtcTrace cfg ok tx t = [] ∧ onBtcState cfg ok tx t = t :=
  ⟨by simp [onBtcTrace, hg], by simp [onBtcState, onBtcTrace, hg]⟩

theorem onBtc_noop_of_classify_none (cfg : HandlerConfig) (ok : Bool) (tx : Tx)
    (t : BotState) (h : String) (hg : txGuard tx t = some h)
    (hc : classifyOutputs cfg.monitored tx.inputs t.priceBtc cfg.minUsd tx.out = none) :
    onBtcTrace cfg ok tx t = [] ∧ onBtcState cfg ok tx t = t :=
  ⟨by simp [onBtcTrace, hg, hc], by simp [onBtcState, onBtcTrace, hg, hc]⟩

theorem onBtc_idempotent_after_success (cfg : HandlerConfig) (ok' : Bool) (tx : Tx)
    (s : BotState) :
    (∀ h, tx.hash = some h → h ∈ s.processed →
      onBtcTrace cfg ok' tx s = [] ∧ onBtcState cfg ok' tx s = s) ∧
    onBtcState cfg ok' tx (onBtcState cfg true tx s) = onBtcState cfg true tx s ∧
    onBtcTrace cfg ok' tx (onBtcState cfg true tx s) = [] := by
  have hseen : ∀ h, tx.hash = some h → h ∈ s.processed →
      onBtcTrace cfg ok' tx s = [] ∧ onBtcState cfg ok' tx s = s := by
    intro h hh hmem
    exact onBtc_noop_of_guard_none cfg ok' tx s (by simp [txGuard, hh, hmem])
  refine ⟨hseen, ?_⟩
  rcases hg : txGuard tx s with _ | h₀
  · have hs1 : onBtcState cfg true tx s = s :=
      (onBtc_noop_of_guard_none cfg true tx s hg).2
    rw [hs1]
    exact ⟨(onBtc_noop_of_guard_none cfg ok' tx s hg).2,
      (onBtc_noop_of_guard_none cfg ok' tx s hg).1⟩
  · obtain ⟨hh, hne, _⟩ := txGuard_eq_some hg
    rcases hc : classifyOutputs cfg.monitored tx.inputs s.priceBtc cfg.minUsd tx.out
      with _ | ⟨a₀, amt₀, v₀⟩
    · have hs1 : onBtcState cfg true tx s = s :=
        (onBtc_noop_of_classify_none cfg true tx s h₀ hg hc).2
      rw [hs1]
      exact ⟨(onBtc_noop_of_classify_none cfg ok' tx s h₀ hg hc).2,
        (onBtc_noop_of_classify_none cfg ok' tx s h₀ hg hc).1⟩
    · have hp : (onBtcState cfg true tx s).processed = h₀ :: s.processed := by
        cases v₀ <;> simp [onBtcState, onBtcTrace, hg, hc, applyAction]
      have hg2 : txGuard tx (onBtcState cfg true tx s) = none := by
        simp [txGuard, hh, hp]
      exact ⟨(onBtc_noop_of_guard_none cfg ok' tx (onBtcState cfg true tx s) hg2).2,
        (onBtc_noop_of_guard_none cfg ok' tx (onBtcState cfg true tx s) hg2).1⟩

/-- Witness for C3 (amended) at a concrete state whose dedup store
already holds the event's id: reprocessing changes nothing. -/
theorem onBtc_idempotent_after_success_witness :
    onBtcTrace cfg0 true txAlert stateSeen = [] ∧
    onBtcState cfg0 true txAlert stateSeen = stateSeen :=
  (onBtc_idempotent_after_success cfg0 true txAlert stateSeen).1 "h1" rfl
    (by simp [stateSeen])

/-- C4: a verdict of Alertable for address a is produced only when a
is the destination of some output, is watched, and appears as the
source of no input of the same transaction; and when every watched
output of a transaction also appears among its input sources, the
handler emits no action and leaves the state untouched. -/
theorem alertable_roundtrip_exclusion (mon : List String) (inputs : List TxInput)
    (price minUsd : ℚ) (outs : List Output) (a : String) (v : ℕ)
    (cfg : HandlerConfig) (ok : Bool) (tx : Tx) (s : BotState) :
    (classifyOutputs mon inputs price minUsd outs = some (a, v, Verdict.alertable) →
      a ∈ mon ∧ (∃ o ∈ outs, o.addr = some a ∧ o.value = v) ∧
        ∀ i ∈ inputs, i.prevOutAddr ≠ some a) ∧
    ((∀ o ∈ tx.out, ∀ a', o.addr = some a' → a' ∈ cfg.monitored →
        ∃ i ∈ tx.inputs, i.prevOutAddr = some a') →
      onBtcTrace cfg ok tx s = [] ∧ onBtcState cfg ok tx s = s) := by
  constructor
  · intro h
    obtain ⟨h1, h2, h3, _⟩ := classify_alertable_spec mon inputs price minUsd outs a v h
    exact ⟨h1, h2, h3⟩
  · intro hall
    have hc := classify_none_of_roundtrip cfg.monitored tx.inputs s.priceBtc cfg.minUsd
      tx.out hall
    rcases hg : txGuard tx s with _ | h₀
    · exact ⟨by simp [onBtcTrace, hg], by simp [onBtcState, onBtcTrace, hg]⟩
    · exact ⟨by simp [onBtcTrace, hg, hc], by simp [onBtcState, onBtcTrace, hg, hc]⟩

/-- Witness for C4 at the concrete round-trip transaction: the only
watched output's address also appears among the inputs, and the
handler leaves the state untouched. -/
theorem alertable_roundtrip_exclusion_witness :
    onBtcTrace cfg0 true txRoundTrip state0 = [] ∧
    onBtcState cfg0 true txRoundTrip state0 = state0 := by
  refine (alertable_roundtrip_exclusion [] [] 0 0 [] "" 0 cfg0 true txRoundTrip state0).2 ?_
  intro o ho a' ha' _
  have ho' : o = { addr := some addrA, value := 100000000 } := by
    simpa [txRoundTrip] using ho
  rw [ho'] at ha'
  obtain rfl : addrA = a' := by simpa using ha'
  exact ⟨{ prevOutAddr := some addrA }, by simp [txRoundTrip], rfl⟩

/-- C9: a zero native amount never yields Alertable — every Alertable
classification carries a positive amount, and every send attempt of
the handler stems from an Alertable classification with positive
amount, so no alert is sent and no alert statistic incremented for a
zero-amount output, regardless of price or threshold. -/
theorem alertable_amount_positive (mon : List String) (inputs : List TxInput)
    (price minUsd : ℚ) (outs : List Output) (a : String) (v : ℕ)
    (cfg : HandlerConfig) (ok : Bool) (tx : Tx) (s : BotState) (hsh : String) :
    (classifyOutputs mon inputs price minUsd outs = some (a, v, Verdict.alertable) →
      0 < v) ∧
    (Action.sendAttempt hsh ∈ onBtcTrace cfg ok tx s →
      ∃ a' v', classifyOutputs cfg.monitored tx.inputs s.priceBtc cfg.minUsd tx.out =
          some (a', v', Verdict.alertable) ∧ 0 < v') := by
  constructor
  · intro h
    exact (classify_alertable_spec mon inputs price minUsd outs a v h).2.2.2
  · intro hmem
    rcases hg : txGuard tx s with _ | h₀
    · rw [show onBtcTrace cfg ok tx s = [] from by simp [onBtcTrace, hg]] at hmem
      simp at hmem
    · rcases hc : classifyOutputs cfg.monitored tx.inputs s.priceBtc cfg.minUsd tx.out
        with _ | ⟨a₀, v₀, v₀d⟩
      · rw [show onBtcTrace cfg ok tx s = [] from by simp [onBtcTrace, hg, hc]] at hmem
        simp at hmem
      · cases v₀d with
        | alertable =>
          exact ⟨a₀, v₀, rfl,
            (classify_alertable_spec cfg.monitored tx.inputs s.priceBtc cfg.minUsd
              tx.out a₀ v₀ hc).2.2.2⟩
        | filtered =>
          rw [show onBtcTrace cfg ok tx s =
              [Action.filterStats a₀, Action.markProcessed h₀, Action.markFiltered h₀]
            from by simp [onBtcTrace, hg, hc]] at hmem
          simp at hmem

/-- Witness for C9 at the concrete alertable transaction: its
classification is Alertable and its amount is positive. -/
theorem alertable_amount_positive_witness :
    classifyOutputs cfg0.monitored txAlert.inputs state0.priceBtc cfg0.minUsd txAlert.out
      = some (addrA, 100000000, Verdict.alertable) ∧ (0 : ℕ) < 100000000 := by
  have hc : classifyOutputs cfg0.monitored txAlert.inputs state0.priceBtc cfg0.minUsd
      txAlert.out = some (addrA, 100000000, Verdict.alertable) := by
    norm_num [classifyOutputs, satToUsd, cfg0, txAlert, state0]
  exact ⟨hc, (alertable_amount_positive cfg0.monitored txAlert.inputs state0.priceBtc
    cfg0.minUsd txAlert.out addrA 100000000 cfg0 true txAlert state0 "h1").1 hc⟩

end CryptoMonitor
